import Mathlib

/-!
Verification development for the notes front-end data-access layer and its
reactive store.

The embedding follows the source closely:

* `Note`, `CreateNoteInput`, `UpdateNoteInput` come from
  `src/notes_frontend/src/types.ts`.  Timestamps are ISO-8601 strings in the
  source, produced by `new Date().toISOString()` and compared through
  `+new Date(s)`; since ISO-8601 strings are order-isomorphic to the instants
  they denote, they are modeled as natural numbers (milliseconds).
* The id generator `uid()` draws random hex strings; it is modeled as an
  oracle `g : Nat -> String` together with a consumption counter threaded
  through the state, so that each call to `uid()` reads `g ctr` and bumps
  `ctr`.  The wall clock is modeled as an explicit `now : Nat` argument per
  operation.
* The localStorage-backed mock (`createLocalMock` in
  `src/notes_frontend/src/services/api.ts`) becomes a family of state-passing
  functions over `MockState`; the persisted value is a `StoredValue`, whose
  non-`arr` constructors stand for a missing key, a JSON.parse failure, and a
  parsed value that is not an array (the three paths on which `read()`
  reseeds).
* The fetch-based client (`createBackendClient`) becomes a family of
  functions parameterized by per-operation network oracles; `NetResult.fail`
  stands for `fetch` rejecting (network failure), and
  `NetResult.response status body` for a response, which `safeFetch` converts
  to a fallback (`none`) unless the status is 2xx (`res.ok`).
* The reactive store (`NotesStore` in `src/state/store.ts`) becomes
  `StoreState`; listeners are identified by opaque tokens (`Nat`), matching
  the removal-by-function-identity of `listeners.filter((l) => l !== fn)`,
  and notification is modeled by returning the trace of invoked listeners in
  order.
-/

/-- Note entity, after `interface Note` in types.ts.  Timestamps are
modeled as naturals (see the file comment). -/
structure Note where
  id : String
  title : String
  content : String
  tags : List String
  createdAt : Nat
  updatedAt : Nat
deriving DecidableEq, Repr

/-- Create payload, after `interface CreateNoteInput` (all three fields
required). -/
structure CreateNoteInput where
  title : String
  content : String
  tags : List String
deriving DecidableEq, Repr

/-- Update payload, after `interface UpdateNoteInput` (all three fields
optional; `none` models an absent property). -/
structure UpdateNoteInput where
  title : Option String
  content : Option String
  tags : Option (List String)
deriving DecidableEq, Repr

/-- The value persisted under the fixed storage key, as seen by `read()`:
missing key, a string JSON.parse throws on, a parsed value that is not an
array, or an array of notes. -/
inductive StoredValue where
  | missing
  | malformed
  | nonArray
  | arr (notes : List Note)
deriving DecidableEq, Repr

/-- State of the localStorage-backed mock: the persisted value plus the
consumption counter of the `uid()` oracle. -/
structure MockState where
  storage : StoredValue
  ctr : Nat
deriving DecidableEq, Repr

/-- Boolean test that `needle` is an initial segment of the list. -/
def startsWithL : List Char → List Char → Bool
  | _, [] => true
  | [], _ :: _ => false
  | a :: as, b :: bs => a == b && startsWithL as bs

/-- Boolean substring search on character lists. -/
def hasSubL (needle : List Char) : List Char → Bool
  | [] => startsWithL [] needle
  | a :: as => startsWithL (a :: as) needle || hasSubL needle as

/-- JS `hay.includes(needle)`. -/
def strIncludes (hay needle : String) : Bool :=
  hasSubL needle.data hay.data

/-- The two demonstration notes built by `seed()`, with ids drawn from the
`uid()` oracle at positions `c` and `c+1` and both timestamps `now`. -/
def seedNotes (g : Nat → String) (c now : Nat) : List Note :=
  [ { id := g c,
      title := "Welcome to Notes",
      content := "This is a demo note. Use the + New Note button to create your own. Edit, search, and delete as needed.",
      tags := ["welcome", "demo"],
      createdAt := now, updatedAt := now },
    { id := g (c + 1),
      title := "Keyboard Tips",
      content := "Use Ctrl/Cmd+K to focus search. Use Ctrl/Cmd+Enter to save in the editor.",
      tags := ["tips"],
      createdAt := now, updatedAt := now } ]

/-- `write(notes)`: persist the full collection. -/
def write (notes : List Note) (st : MockState) : MockState :=
  { st with storage := .arr notes }

/-- `read()`: return the stored collection; on a missing key, a parse
failure, or a non-array value, build the seed data, persist it (the
`write(data)` inside `seed()`), and return it. -/
def readNotes (g : Nat → String) (now : Nat) (st : MockState) : List Note × MockState :=
  match st.storage with
  | .arr notes => (notes, st)
  | _ =>
      let data := seedNotes g st.ctr now
      (data, { storage := .arr data, ctr := st.ctr + 2 })

/-- The sort comparator of `list`: `(a, b) => +new Date(b.updatedAt) - +new
Date(a.updatedAt)`, i.e. `a` may stay before `b` iff `b.updatedAt <=
a.updatedAt` (descending).  JS `Array.prototype.sort` is stable, so a stable
merge sort under this total preorder is an exact model. -/
def updatedDesc (a b : Note) : Bool :=
  decide (b.updatedAt ≤ a.updatedAt)

/-- The filter predicate of `list` on an already-lowercased query `q`:
title, content, or some tag contains `q` case-insensitively. -/
def matchesQuery (q : String) (n : Note) : Bool :=
  strIncludes n.title.toLower q || strIncludes n.content.toLower q ||
    n.tags.any (fun t => strIncludes t.toLower q)

/-- Mock `list(query)`.  The source checks `if (!query) return all`; both an
omitted argument and the empty string are falsy, so the query is modeled as
a plain string with `""` meaning absent. -/
def listOp (g : Nat → String) (now : Nat) (query : String) (st : MockState) :
    List Note × MockState :=
  let (all, st') := readNotes g now st
  let sorted := all.mergeSort updatedDesc
  if query = "" then (sorted, st')
  else (sorted.filter (matchesQuery query.toLower), st')

/-- Mock `get(id)`: first note with that id, else `null`. -/
def getOp (g : Nat → String) (now : Nat) (id : String) (st : MockState) :
    Option Note × MockState :=
  let (all, st') := readNotes g now st
  (all.find? (fun n => n.id == id), st')

/-- Mock `create(input)`: build the new note (consuming one oracle id;
`input.title || "Untitled"` defaults an empty title, `input.content || ""`
is the identity on strings, and `input.tags || []` is the identity since
arrays are truthy), then read, unshift, and write. -/
def createOp (g : Nat → String) (now : Nat) (input : CreateNoteInput) (st : MockState) :
    Note × MockState :=
  let newNote : Note :=
    { id := g st.ctr,
      title := if input.title = "" then "Untitled" else input.title,
      content := if input.content = "" then "" else input.content,
      tags := input.tags,
      createdAt := now, updatedAt := now }
  let (all, st') := readNotes g now { st with ctr := st.ctr + 1 }
  (newNote, write (newNote :: all) st')

/-- The merged note of `update`: spread of the old note, then the supplied
fields, then a fresh `updatedAt`. -/
def mergeNote (old : Note) (input : UpdateNoteInput) (now : Nat) : Note :=
  { old with
    title := input.title.getD old.title,
    content := input.content.getD old.content,
    tags := input.tags.getD old.tags,
    updatedAt := now }

/-- Mock `update(id, input)`: find the first index with that id (`findIndex`
returning -1 is modeled by `findIdx` returning the length), throw
`"Note not found"` when absent, else merge, set in place, and write. -/
def updateOp (g : Nat → String) (now : Nat) (id : String) (input : UpdateNoteInput)
    (st : MockState) : Except String Note × MockState :=
  let (all, st') := readNotes g now st
  let idx := all.findIdx (fun n => n.id == id)
  if h : idx < all.length then
    let updated := mergeNote (all.get ⟨idx, h⟩) input now
    (Except.ok updated, write (all.set idx updated) st')
  else
    (Except.error "Note not found", st')

/-- Mock `remove(id)`: keep every note with a different id and write. -/
def removeOp (g : Nat → String) (now : Nat) (id : String) (st : MockState) : MockState :=
  let (all, st') := readNotes g now st
  write (all.filter (fun n => n.id != id)) st'

/-- Outcome of one `fetch` call: `fail` is a rejected promise (network
failure), `response` a settled HTTP response with status and decoded body. -/
inductive NetResult (α : Type) where
  | fail
  | response (status : Nat) (body : α)
deriving DecidableEq, Repr

/-- `safeFetch`: a rejected fetch or a non-2xx status (`!res.ok` throws into
the same catch) both yield `none`, the trigger for mock fallback; a 2xx
response is passed through with its status. -/
def fetchOk {α : Type} (r : NetResult α) : Option (Nat × α) :=
  match r with
  | .fail => none
  | .response s b => if 200 ≤ s ∧ s ≤ 299 then some (s, b) else none

/-- Backend `list`: on fallback delegate to the mock, else return the
decoded body. -/
def backendList (net : String → NetResult (List Note)) (g : Nat → String) (now : Nat)
    (query : String) (st : MockState) : List Note × MockState :=
  match fetchOk (net query) with
  | none => listOp g now query st
  | some (_, data) => (data, st)

/-- Backend `get`: on fallback delegate to the mock; otherwise the source
still checks `res.status === 404` and returns `null`, a branch kept here
exactly as written even though `safeFetch` never lets a 404 through. -/
def backendGet (net : String → NetResult Note) (g : Nat → String) (now : Nat)
    (id : String) (st : MockState) : Option Note × MockState :=
  match fetchOk (net id) with
  | none => getOp g now id st
  | some (s, body) => if s == 404 then (none, st) else (some body, st)

/-- Backend `create`: on fallback delegate to the mock. -/
def backendCreate (net : CreateNoteInput → NetResult Note) (g : Nat → String) (now : Nat)
    (input : CreateNoteInput) (st : MockState) : Note × MockState :=
  match fetchOk (net input) with
  | none => createOp g now input st
  | some (_, body) => (body, st)

/-- Backend `update`: on fallback delegate to the mock. -/
def backendUpdate (net : String → UpdateNoteInput → NetResult Note) (g : Nat → String)
    (now : Nat) (id : String) (input : UpdateNoteInput) (st : MockState) :
    Except String Note × MockState :=
  match fetchOk (net id input) with
  | none => updateOp g now id input st
  | some (_, body) => (Except.ok body, st)

/-- Backend `remove`: on fallback delegate to the mock. -/
def backendRemove (net : String → NetResult Unit) (g : Nat → String) (now : Nat)
    (id : String) (st : MockState) : MockState :=
  match fetchOk (net id) with
  | none => removeOp g now id st
  | some _ => st

/-- State of the `NotesStore` singleton in `src/state/store.ts`, over the
local mock backend (the factory returns the mock when no base URL is
configured).  Listeners are opaque tokens compared by identity. -/
structure StoreState where
  mock : MockState
  notes : List Note
  query : String
  listeners : List Nat
deriving DecidableEq, Repr

/-- `subscribe(fn)`: push the listener. -/
def subscribeOp (fn : Nat) (st : StoreState) : StoreState :=
  { st with listeners := st.listeners ++ [fn] }

/-- The deregistration closure returned by `subscribe`: keep every listener
that is not (identical to) `fn`. -/
def unsubscribeOp (fn : Nat) (st : StoreState) : StoreState :=
  { st with listeners := st.listeners.filter (fun l => l != fn) }

/-- `refresh()`: replace the cached list with `list(currentQuery)` from the
backend, then `emit()`.  The second component is the notification trace:
the listeners invoked, in order. -/
def refreshOp (g : Nat → String) (now : Nat) (st : StoreState) :
    StoreState × List Nat :=
  let (ns, mock') := listOp g now st.query st.mock
  let st' := { st with mock := mock', notes := ns }
  (st', st'.listeners)

/-- Store `create`: delegate to the backend, then refresh.  The create call
and the refresh happen at (possibly different) instants `nowC`, `nowR`. -/
def storeCreate (g : Nat → String) (nowC nowR : Nat) (input : CreateNoteInput)
    (st : StoreState) : StoreState × List Nat :=
  let (_, mock') := createOp g nowC input st.mock
  refreshOp g nowR { st with mock := mock' }

/-- Store `update`: delegate to the backend; on success refresh, on a thrown
NotFound the rejection propagates and no refresh happens (empty trace). -/
def storeUpdate (g : Nat → String) (nowU nowR : Nat) (id : String)
    (input : UpdateNoteInput) (st : StoreState) :
    Except String Unit × StoreState × List Nat :=
  let (r, mock') := updateOp g nowU id input st.mock
  match r with
  | .ok _ =>
      let (st', trace) := refreshOp g nowR { st with mock := mock' }
      (Except.ok (), st', trace)
  | .error e => (Except.error e, { st with mock := mock' }, [])

/-- Store `remove`: delegate to the backend, then refresh. -/
def storeRemove (g : Nat → String) (nowD nowR : Nat) (id : String) (st : StoreState) :
    StoreState × List Nat :=
  refreshOp g nowR { st with mock := removeOp g nowD id st.mock }

/-- The ids of a collection, in order. -/
def idsOf (ns : List Note) : List String :=
  ns.map Note.id

/-- Concrete fixture note used by witnesses. -/
def noteA : Note :=
  { id := "a", title := "Alpha", content := "first", tags := ["one"],
    createdAt := 0, updatedAt := 0 }

/-- Second concrete fixture note used by witnesses. -/
def noteB : Note :=
  { id := "b", title := "Beta", content := "second", tags := ["two"],
    createdAt := 1, updatedAt := 3 }

/-- Setting an index of a list to the element already there changes
nothing. -/
theorem set_self_eq {α : Type} (l : List α) (i : Nat) (h : i < l.length) :
    l.set i l[i] = l := by
  apply List.ext_getElem?
  intro n
  rw [List.getElem?_set]
  by_cases hn : i = n
  · subst hn; simp [List.getElem?_eq_getElem, h]
  · simp [hn]

/-- C1: with network oracles that fail on every request, each of the five
backend-client operations returns exactly what the local mock returns on the
same arguments and state, so no network failure reaches the caller. -/
theorem backendAllFail_eq_localMock
    (netL : String → NetResult (List Note)) (netG : String → NetResult Note)
    (netC : CreateNoteInput → NetResult Note)
    (netU : String → UpdateNoteInput → NetResult Note)
    (netR : String → NetResult Unit)
    (hL : ∀ q, netL q = .fail) (hG : ∀ i, netG i = .fail)
    (hC : ∀ x, netC x = .fail) (hU : ∀ i x, netU i x = .fail)
    (hR : ∀ i, netR i = .fail) :
    (∀ g now q st, backendList netL g now q st = listOp g now q st) ∧
    (∀ g now i st, backendGet netG g now i st = getOp g now i st) ∧
    (∀ g now x st, backendCreate netC g now x st = createOp g now x st) ∧
    (∀ g now i x st, backendUpdate netU g now i x st = updateOp g now i x st) ∧
    (∀ g now i st, backendRemove netR g now i st = removeOp g now i st) := by
  refine ⟨fun g now q st => ?_, fun g now i st => ?_, fun g now x st => ?_,
    fun g now i x st => ?_, fun g now i st => ?_⟩ <;>
    simp [backendList, backendGet, backendCreate, backendUpdate, backendRemove,
      fetchOk, hL, hG, hC, hU, hR]

/-- Witness for C1 at concrete arguments. -/
theorem backendAllFail_eq_localMock_witness :
    backendList (fun _ => NetResult.fail) (fun _ => "w") 0 "q" ⟨.arr [noteA], 0⟩ =
      listOp (fun _ => "w") 0 "q" ⟨.arr [noteA], 0⟩ ∧
    backendGet (fun _ => NetResult.fail) (fun _ => "w") 0 "a" ⟨.arr [noteA], 0⟩ =
      getOp (fun _ => "w") 0 "a" ⟨.arr [noteA], 0⟩ :=
  ⟨(backendAllFail_eq_localMock (fun _ => NetResult.fail) (fun _ => NetResult.fail)
      (fun _ => NetResult.fail) (fun _ _ => NetResult.fail) (fun _ => NetResult.fail)
      (fun _ => rfl) (fun _ => rfl) (fun _ => rfl) (fun _ _ => rfl) (fun _ => rfl)).1
      (fun _ => "w") 0 "q" ⟨.arr [noteA], 0⟩,
   (backendAllFail_eq_localMock (fun _ => NetResult.fail) (fun _ => NetResult.fail)
      (fun _ => NetResult.fail) (fun _ _ => NetResult.fail) (fun _ => NetResult.fail)
      (fun _ => rfl) (fun _ => rfl) (fun _ => rfl) (fun _ _ => rfl) (fun _ => rfl)).2.1
      (fun _ => "w") 0 "a" ⟨.arr [noteA], 0⟩⟩

/-- C2: a 404 response on the backend `get` does NOT reach the caller as an
absent result; `safeFetch` treats every non-2xx status as a fault, so the
call falls back to the mock, which here returns a note instead of the
`null` the spec requires (the `res.status === 404` branch is dead code). -/
theorem backendGet_404_falls_back :
    backendGet (fun _ => NetResult.response 404 noteB) (fun _ => "w") 0 "a"
        ⟨.arr [noteA], 0⟩ = (some noteA, ⟨.arr [noteA], 0⟩) ∧
      some noteA ≠ (none : Option Note) := by
  decide

/-- C4 counterexample: with an empty input title, create followed by get
yields a note titled "Untitled", not the input title "". -/
theorem create_emptyTitle_breaks_roundtrip :
    Option.map Note.title
        ((getOp (fun _ => "w") 6
            ((createOp (fun _ => "w") 5 ⟨"", "c", []⟩ ⟨.arr [], 0⟩).1).id
            ((createOp (fun _ => "w") 5 ⟨"", "c", []⟩ ⟨.arr [], 0⟩).2)).1)
        = some "Untitled" ∧
      ("Untitled" : String) ≠ "" := by
  decide

/-- C4 (amended): create followed by get on the returned id yields exactly
the created note; its content and tags equal the input, its title equals the
input title unless that is empty (in which case it is "Untitled"), and its
createdAt equals its updatedAt. -/
theorem create_then_get_roundtrip (g : Nat → String) (now now2 : Nat)
    (input : CreateNoteInput) (st : MockState) :
    (getOp g now2 ((createOp g now input st).1).id ((createOp g now input st).2)).1
        = some (createOp g now input st).1 ∧
    ((createOp g now input st).1).content = input.content ∧
    ((createOp g now input st).1).tags = input.tags ∧
    ((createOp g now input st).1).title =
      (if input.title = "" then "Untitled" else input.title) ∧
    ((createOp g now input st).1).createdAt = ((createOp g now input st).1).updatedAt := by
  refine ⟨?_, ?_, ?_, ?_, ?_⟩
  · simp [createOp, getOp, write, readNotes]
  · by_cases h : input.content = "" <;> simp [createOp, h]
  · simp [createOp]
  · simp [createOp]
  · simp [createOp]

/-- C5: update on an existing id merges only the supplied fields over the
old note, keeps id, createdAt, and every omitted field unchanged, stamps
updatedAt with the call time, and — under the clock assumption that the
call happens strictly after the note was created — leaves updatedAt
strictly greater than createdAt. -/
theorem update_partial_frame (g : Nat → String) (now : Nat) (id : String)
    (input : UpdateNoteInput) (ns : List Note) (st : MockState) (old : Note)
    (hst : st.storage = .arr ns)
    (hidx : ns[ns.findIdx (fun n => n.id == id)]? = some old)
    (hclock : old.createdAt < now) :
    updateOp g now id input st =
      (Except.ok (mergeNote old input now),
       write (ns.set (ns.findIdx (fun n => n.id == id)) (mergeNote old input now)) st) ∧
    (mergeNote old input now).id = old.id ∧
    (mergeNote old input now).createdAt = old.createdAt ∧
    (input.title = none → (mergeNote old input now).title = old.title) ∧
    (input.content = none → (mergeNote old input now).content = old.content) ∧
    (input.tags = none → (mergeNote old input now).tags = old.tags) ∧
    (∀ s, input.title = some s → (mergeNote old input now).title = s) ∧
    (∀ s, input.content = some s → (mergeNote old input now).content = s) ∧
    (∀ ts, input.tags = some ts → (mergeNote old input now).tags = ts) ∧
    (mergeNote old input now).updatedAt = now ∧
    (mergeNote old input now).createdAt < (mergeNote old input now).updatedAt := by
  obtain ⟨hlen, hget⟩ := List.getElem?_eq_some.mp hidx
  obtain ⟨sv, c⟩ := st
  have hsv : sv = .arr ns := hst
  subst hsv
  refine ⟨?_, rfl, rfl, ?_, ?_, ?_, ?_, ?_, ?_, rfl, ?_⟩
  · simp only [updateOp, readNotes]
    rw [dif_pos hlen]
    simp [List.get_eq_getElem, hget]
  · intro h; simp [mergeNote, h]
  · intro h; simp [mergeNote, h]
  · intro h; simp [mergeNote, h]
  · intro s h; simp [mergeNote, h]
  · intro s h; simp [mergeNote, h]
  · intro ts h; simp [mergeNote, h]
  · simpa [mergeNote] using hclock

/-- Witness for C5 at a concrete note, state, and partial input supplying
only the content. -/
theorem update_partial_frame_witness :
    (mergeNote noteA ⟨none, some "x", none⟩ 5).title = noteA.title ∧
    (mergeNote noteA ⟨none, some "x", none⟩ 5).content = "x" ∧
    (mergeNote noteA ⟨none, some "x", none⟩ 5).createdAt <
      (mergeNote noteA ⟨none, some "x", none⟩ 5).updatedAt ∧
    updateOp (fun _ => "w") 5 "a" ⟨none, some "x", none⟩ ⟨.arr [noteA], 0⟩ =
      (Except.ok (mergeNote noteA ⟨none, some "x", none⟩ 5),
       write ([noteA].set 0 (mergeNote noteA ⟨none, some "x", none⟩ 5))
         ⟨.arr [noteA], 0⟩) := by
  have T := update_partial_frame (fun _ => "w") 5 "a" ⟨none, some "x", none⟩ [noteA]
    ⟨.arr [noteA], 0⟩ noteA rfl rfl (by decide)
  exact ⟨T.2.2.2.1 rfl, T.2.2.2.2.2.2.2.1 "x" rfl, T.2.2.2.2.2.2.2.2.2.2, T.1⟩

/-- C6: update of an id absent from the stored collection returns the
NotFound error and leaves the whole mock state (persisted value and id
counter) unchanged; nothing is written. -/
theorem update_notFound_unchanged (g : Nat → String) (now : Nat) (id : String)
    (input : UpdateNoteInput) (ns : List Note) (st : MockState)
    (hst : st.storage = .arr ns)
    (habs : ∀ n ∈ ns, n.id ≠ id) :
    updateOp g now id input st = (Except.error "Note not found", st) := by
  obtain ⟨sv, c⟩ := st
  have hsv : sv = .arr ns := hst
  subst hsv
  have hlt : ¬ (ns.findIdx (fun n => n.id == id) < ns.length) := by
    intro hcon
    obtain ⟨x, hx, hpx⟩ := List.findIdx_lt_length.mp hcon
    exact habs x hx (by simpa using hpx)
  simp [updateOp, readNotes, hlt]

/-- Witness for C6: updating id "b" in a collection holding only id "a". -/
theorem update_notFound_unchanged_witness :
    updateOp (fun _ => "w") 5 "b" ⟨none, some "x", none⟩ ⟨.arr [noteA], 0⟩ =
      (Except.error "Note not found", ⟨.arr [noteA], 0⟩) :=
  update_notFound_unchanged (fun _ => "w") 5 "b" ⟨none, some "x", none⟩ [noteA]
    ⟨.arr [noteA], 0⟩ rfl (by decide)

/-- C3: on a stored collection, list(query) returns exactly the matching
notes — a permutation of the filter of the collection (the whole collection
when the query is empty), membership characterized by the case-insensitive
substring test on title, content, or some tag — ordered by updatedAt
descending, without changing the state. -/
theorem list_filters_and_sorts (g : Nat → String) (now : Nat) (query : String)
    (ns : List Note) (st : MockState)
    (hst : st.storage = .arr ns) :
    ((listOp g now query st).1).Perm
      (if query = "" then ns else ns.filter (matchesQuery query.toLower)) ∧
    ((listOp g now query st).1).Pairwise (fun a b => b.updatedAt ≤ a.updatedAt) ∧
    (∀ n, n ∈ (listOp g now query st).1 ↔
      (n ∈ ns ∧ (query = "" ∨ matchesQuery query.toLower n = true))) ∧
    (listOp g now query st).2 = st := by
  obtain ⟨sv, c⟩ := st
  have hsv : sv = .arr ns := hst
  subst hsv
  have htrans : ∀ a b c : Note, updatedDesc a b = true → updatedDesc b c = true →
      updatedDesc a c = true := by
    intro a b c hab hbc
    simp only [updatedDesc, decide_eq_true_eq] at hab hbc ⊢
    omega
  have htotal : ∀ a b : Note, (updatedDesc a b || updatedDesc b a) = true := by
    intro a b
    simp only [updatedDesc, Bool.or_eq_true, decide_eq_true_eq]
    omega
  have hsorted : (ns.mergeSort updatedDesc).Pairwise
      (fun a b => b.updatedAt ≤ a.updatedAt) :=
    (List.sorted_mergeSort htrans htotal ns).imp
      (fun h => by simpa [updatedDesc] using h)
  have hperm := List.mergeSort_perm ns updatedDesc
  by_cases hq : query = ""
  · refine ⟨?_, ?_, ?_, ?_⟩
    · simpa [listOp, readNotes, hq] using hperm
    · simp only [listOp, readNotes, hq, if_pos]
      exact hsorted
    · intro n
      simp [listOp, readNotes, hq, hperm.mem_iff]
    · simp [listOp, readNotes, hq]
  · refine ⟨?_, ?_, ?_, ?_⟩
    · simpa [listOp, readNotes, hq] using hperm.filter (matchesQuery query.toLower)
    · simpa [listOp, readNotes, hq] using hsorted.filter (matchesQuery query.toLower)
    · intro n
      simp [listOp, readNotes, hq, List.mem_filter, hperm.mem_iff]
    · simp [listOp, readNotes, hq]

/-- Witness for C3 on a two-note collection and the query "two", which
matches only the second note through its tag. -/
theorem list_filters_and_sorts_witness :
    ((listOp (fun _ => "w") 9 "two" ⟨.arr [noteA, noteB], 0⟩).1).Perm
        (if "two" = "" then [noteA, noteB]
         else [noteA, noteB].filter (matchesQuery "two".toLower)) ∧
    ((listOp (fun _ => "w") 9 "two" ⟨.arr [noteA, noteB], 0⟩).1).Pairwise
        (fun a b => b.updatedAt ≤ a.updatedAt) ∧
    (noteB ∈ (listOp (fun _ => "w") 9 "two" ⟨.arr [noteA, noteB], 0⟩).1 ↔
      (noteB ∈ [noteA, noteB] ∧
        ("two" = "" ∨ matchesQuery "two".toLower noteB = true))) ∧
    (listOp (fun _ => "w") 9 "two" ⟨.arr [noteA, noteB], 0⟩).2 =
      ⟨.arr [noteA, noteB], 0⟩ := by
  have T := list_filters_and_sorts (fun _ => "w") 9 "two" [noteA, noteB]
    ⟨.arr [noteA, noteB], 0⟩ rfl
  exact ⟨T.1, T.2.1, T.2.2.1 noteB, T.2.2.2⟩

/-- C7: when the persisted value is missing, malformed, or not an array,
the next list call returns exactly the two demonstration notes, in order,
and storage is overwritten with that seeded collection; `read` itself
already returns the seeded data, so every operation computes on a valid
collection instead of failing. -/
theorem corrupt_storage_reseeds (g : Nat → String) (now : Nat) (st : MockState)
    (h : ∀ ns, st.storage ≠ .arr ns) :
    listOp g now "" st =
      (seedNotes g st.ctr now,
       ⟨.arr (seedNotes g st.ctr now), st.ctr + 2⟩) ∧
    readNotes g now st =
      (seedNotes g st.ctr now,
       ⟨.arr (seedNotes g st.ctr now), st.ctr + 2⟩) ∧
    (seedNotes g st.ctr now).map Note.title =
      ["Welcome to Notes", "Keyboard Tips"] := by
  have hread : readNotes g now st =
      (seedNotes g st.ctr now, ⟨.arr (seedNotes g st.ctr now), st.ctr + 2⟩) := by
    obtain ⟨sv, c⟩ := st
    cases sv with
    | arr ns => exact absurd rfl (h ns)
    | missing => rfl
    | malformed => rfl
    | nonArray => rfl
  have hsort : (seedNotes g st.ctr now).mergeSort updatedDesc =
      seedNotes g st.ctr now := by
    apply List.mergeSort_of_sorted
    simp [seedNotes, updatedDesc]
  refine ⟨?_, hread, by simp [seedNotes]⟩
  simp [listOp, hread, hsort]

/-- Witness for C7 from a malformed stored value. -/
theorem corrupt_storage_reseeds_witness :
    listOp (fun _ => "w") 7 "" ⟨.malformed, 3⟩ =
      (seedNotes (fun _ => "w") 3 7, ⟨.arr (seedNotes (fun _ => "w") 3 7), 5⟩) ∧
    (seedNotes (fun _ => "w") 3 7).map Note.title =
      ["Welcome to Notes", "Keyboard Tips"] := by
  have T := corrupt_storage_reseeds (fun _ => "w") 7 ⟨.malformed, 3⟩
    (fun ns heq => StoredValue.noConfusion heq)
  exact ⟨T.1, T.2.2⟩

/-- Concrete store fixture with two registered listeners, for C8. -/
def stV : StoreState :=
  ⟨⟨.arr [noteA], 0⟩, [], "", [5, 7]⟩

/-- Concrete store fixture with two registered listeners, for C10. -/
def stW : StoreState :=
  ⟨⟨.arr [], 0⟩, [], "", [1, 2]⟩

/-- C8: refresh replaces the cache with list(currentQuery) over the active
backend and synchronously notifies every currently registered listener
exactly once, in registration order (the trace is the listener list
itself); create, update (when it succeeds), and remove delegate to the
backend and then are exactly a refresh on the post-mutation state, so the
cache is never updated optimistically. -/
theorem store_refresh_notifies (g : Nat → String) (now nowM : Nat)
    (input : CreateNoteInput) (id : String) (uinput : UpdateNoteInput)
    (st : StoreState) :
    ((refreshOp g now st).1.notes = (listOp g now st.query st.mock).1 ∧
     (refreshOp g now st).1.mock = (listOp g now st.query st.mock).2 ∧
     (refreshOp g now st).1.query = st.query ∧
     (refreshOp g now st).1.listeners = st.listeners ∧
     (refreshOp g now st).2 = st.listeners) ∧
    (storeCreate g nowM now input st =
      refreshOp g now { st with mock := (createOp g nowM input st.mock).2 }) ∧
    (∀ n, (updateOp g nowM id uinput st.mock).1 = Except.ok n →
      storeUpdate g nowM now id uinput st =
        (Except.ok (),
         refreshOp g now { st with mock := (updateOp g nowM id uinput st.mock).2 })) ∧
    (storeRemove g nowM now id st =
      refreshOp g now { st with mock := removeOp g nowM id st.mock }) := by
  refine ⟨⟨rfl, rfl, rfl, rfl, rfl⟩, rfl, ?_, rfl⟩
  intro n h
  simp [storeUpdate, h]

/-- Witness for C8: a store with listeners [5, 7] and a successful update
of the only stored note. -/
theorem store_refresh_notifies_witness :
    (refreshOp (fun _ => "w") 9 stV).2 = [5, 7] ∧
    storeUpdate (fun _ => "w") 5 9 "a" ⟨none, some "x", none⟩ stV =
      (Except.ok (),
       refreshOp (fun _ => "w") 9
         { stV with
           mock := (updateOp (fun _ => "w") 5 "a" ⟨none, some "x", none⟩
              stV.mock).2 }) := by
  have T := store_refresh_notifies (fun _ => "w") 9 5 ⟨"t", "c", []⟩ "a"
    ⟨none, some "x", none⟩ stV
  exact ⟨T.1.2.2.2.2, T.2.2.1 (mergeNote noteA ⟨none, some "x", none⟩ 5) rfl⟩

/-- Listeners after n subscriptions of the same token: the original list
followed by n copies. -/
theorem iterate_subscribe_listeners (fn : Nat) (n : Nat) (st : StoreState) :
    ((subscribeOp fn)^[n] st).listeners = st.listeners ++ List.replicate n fn := by
  induction n with
  | zero => simp
  | succ k ih =>
      rw [Function.iterate_succ_apply']
      simp [subscribeOp, ih, List.replicate_succ']

/-- C10: after subscribing the same listener n times (to a store where it
was not yet registered), each refresh notifies it exactly n times; the
deregistration closure removes every one of its registrations at once while
leaving every other listener's registrations untouched, and running the
closure again changes nothing. -/
theorem subscribe_count_unsubscribe_all (g : Nat → String) (now : Nat)
    (fn : Nat) (n : Nat) (st : StoreState)
    (hfn : fn ∉ st.listeners) :
    ((refreshOp g now ((subscribeOp fn)^[n] st)).2.count fn = n) ∧
    ((unsubscribeOp fn ((subscribeOp fn)^[n] st)).listeners.count fn = 0) ∧
    (∀ l, l ≠ fn →
      (unsubscribeOp fn ((subscribeOp fn)^[n] st)).listeners.count l =
        ((subscribeOp fn)^[n] st).listeners.count l) ∧
    (unsubscribeOp fn (unsubscribeOp fn ((subscribeOp fn)^[n] st)) =
      unsubscribeOp fn ((subscribeOp fn)^[n] st)) := by
  have hl := iterate_subscribe_listeners fn n st
  refine ⟨?_, ?_, ?_, ?_⟩
  · simp [refreshOp, hl, List.count_append, List.count_replicate,
      List.count_eq_zero_of_not_mem hfn]
  · simp [unsubscribeOp, List.count_eq_zero, List.mem_filter]
  · intro l hlne
    apply List.count_filter
    simpa [bne_iff_ne] using hlne
  · simp [unsubscribeOp, List.filter_filter, Bool.and_self]

/-- Witness for C10: token 3 subscribed twice to a store with listeners
[1, 2]. -/
theorem subscribe_count_unsubscribe_all_witness :
    ((refreshOp (fun _ => "w") 0 ((subscribeOp 3)^[2] stW)).2.count 3 = 2) ∧
    ((unsubscribeOp 3 ((subscribeOp 3)^[2] stW)).listeners.count 3 = 0) ∧
    ((unsubscribeOp 3 ((subscribeOp 3)^[2] stW)).listeners.count 1 =
      ((subscribeOp 3)^[2] stW).listeners.count 1) ∧
    (unsubscribeOp 3 (unsubscribeOp 3 ((subscribeOp 3)^[2] stW)) =
      unsubscribeOp 3 ((subscribeOp 3)^[2] stW)) := by
  have T := subscribe_count_unsubscribe_all (fun _ => "w") 0 3 2 stW (by decide)
  exact ⟨T.1, T.2.1, T.2.2.1 1 (by decide), T.2.2.2⟩

/-- One mock mutation together with its call instant. -/
inductive MockOp where
  | createN (input : CreateNoteInput) (now : Nat)
  | updateN (id : String) (input : UpdateNoteInput) (now : Nat)
  | removeN (id : String) (now : Nat)

/-- The call instant of a mutation. -/
def MockOp.time : MockOp → Nat
  | .createN _ t => t
  | .updateN _ _ t => t
  | .removeN _ t => t

/-- Apply one mutation to the mock state; for an update of a missing id the
state left behind by the throwing call (after its read) is kept. -/
def applyOp (g : Nat → String) : MockOp → MockState → MockState
  | .createN input t, st => (createOp g t input st).2
  | .updateN id input t, st => (updateOp g t id input st).2
  | .removeN id t, st => removeOp g t id st

/-- Run a sequence of mutations left to right. -/
def runOps (g : Nat → String) : List MockOp → MockState → MockState
  | [], st => st
  | op :: rest, st => runOps g rest (applyOp g op st)

/-- The call instants are nondecreasing along the sequence, starting no
earlier than t (the wall clock never runs backwards). -/
def WellTimed : Nat → List MockOp → Prop
  | _, [] => True
  | t, op :: rest => t ≤ op.time ∧ WellTimed op.time rest

/-- Collection invariant at instant t: distinct ids, updatedAt at least
createdAt, and no timestamp beyond t. -/
def NotesOK (ns : List Note) (t : Nat) : Prop :=
  (idsOf ns).Nodup ∧
    ∀ n ∈ ns, n.createdAt ≤ n.updatedAt ∧ n.createdAt ≤ t ∧ n.updatedAt ≤ t

/-- Mock-state invariant at instant t: whenever storage holds a collection,
it is a valid one whose ids avoid every unconsumed position of the id
oracle. -/
def MockInv (g : Nat → String) (t : Nat) (st : MockState) : Prop :=
  ∀ ns, st.storage = .arr ns →
    NotesOK ns t ∧ ∀ k, st.ctr ≤ k → g k ∉ idsOf ns

/-- The collection invariant is stable as the clock advances. -/
theorem notesOK_mono {ns : List Note} {t t' : Nat} (h : NotesOK ns t)
    (hle : t ≤ t') : NotesOK ns t' := by
  obtain ⟨h1, h2⟩ := h
  exact ⟨h1, fun n hn =>
    ⟨(h2 n hn).1, le_trans (h2 n hn).2.1 hle, le_trans (h2 n hn).2.2 hle⟩⟩

/-- The seed collection is valid at its creation instant, its ids occupy
only the two consumed oracle positions, and so stay clear both of later
and of earlier positions of an injective oracle. -/
theorem seedNotes_ok (g : Nat → String) (hg : Function.Injective g) (c now : Nat) :
    NotesOK (seedNotes g c now) now ∧
    (∀ k, c + 2 ≤ k → g k ∉ idsOf (seedNotes g c now)) ∧
    (∀ k, k < c → g k ∉ idsOf (seedNotes g c now)) := by
  refine ⟨⟨?_, ?_⟩, ?_, ?_⟩
  · simp only [seedNotes, idsOf, List.map_cons, List.map_nil, List.nodup_cons,
      List.mem_cons, List.not_mem_nil, or_false, List.nodup_nil, and_true,
      List.mem_singleton]
    exact ⟨fun h => absurd (hg h) (by omega), not_false⟩
  · intro n hn
    simp only [seedNotes, List.mem_cons, List.not_mem_nil, or_false] at hn
    rcases hn with h | h <;> subst h <;> simp
  · intro k hk
    simp only [idsOf, seedNotes, List.map_cons, List.map_nil, List.mem_cons,
      List.not_mem_nil, or_false, List.mem_singleton]
    rintro (h | h) <;> have := hg h <;> omega
  · intro k hk
    simp only [idsOf, seedNotes, List.map_cons, List.map_nil, List.mem_cons,
      List.not_mem_nil, or_false, List.mem_singleton]
    rintro (h | h) <;> have := hg h <;> omega

/-- A state holding a fresh note consed onto a valid collection, with an id
counter clear of all its ids, satisfies the invariant. -/
theorem consState_inv (g : Nat → String) (now c' : Nat) (nn : Note) (ns : List Note)
    (hok : NotesOK ns now) (hnotin : nn.id ∉ idsOf ns)
    (hcr : nn.createdAt = now) (hup : nn.updatedAt = now)
    (hfr : ∀ k, c' ≤ k → g k ∉ idsOf ns)
    (hfr2 : ∀ k, c' ≤ k → g k ≠ nn.id) :
    MockInv g now ⟨.arr (nn :: ns), c'⟩ := by
  intro ns' heq
  have h2 : StoredValue.arr (nn :: ns) = .arr ns' := heq
  injection h2 with h3
  subst h3
  refine ⟨⟨List.nodup_cons.mpr ⟨hnotin, hok.1⟩, ?_⟩, ?_⟩
  · intro n hn
    rcases List.mem_cons.mp hn with h | h
    · subst h; exact ⟨by simp [hcr, hup], by simp [hcr], by simp [hup]⟩
    · exact hok.2 n h
  · intro k hk hmem
    rcases List.mem_cons.mp hmem with h | h
    · exact hfr2 k hk h
    · exact hfr k hk h

/-- Creating preserves the invariant, advancing the instant to the call
time. -/
theorem createOp_inv (g : Nat → String) (hg : Function.Injective g) {t : Nat}
    (now : Nat) (input : CreateNoteInput) (st : MockState)
    (h : MockInv g t st) (hle : t ≤ now) :
    MockInv g now (createOp g now input st).2 := by
  obtain ⟨sv, c⟩ := st
  cases sv with
  | arr ns =>
      obtain ⟨hok, hfresh⟩ := h ns rfl
      have hfresh' : ∀ k, c ≤ k → g k ∉ idsOf ns := hfresh
      exact consState_inv g now (c + 1) ((createOp g now input ⟨.arr ns, c⟩).1) ns
        (notesOK_mono hok hle) (hfresh' c le_rfl) rfl rfl
        (fun k hk => hfresh' k (by omega))
        (fun k hk hkc => by have h5 : k = c := hg hkc; omega)
  | missing =>
      obtain ⟨hok, hfreshAfter, hfreshBefore⟩ := seedNotes_ok g hg (c + 1) now
      exact consState_inv g now (c + 3) ((createOp g now input ⟨.missing, c⟩).1)
        (seedNotes g (c + 1) now)
        hok (hfreshBefore c (by omega)) rfl rfl
        (fun k hk => hfreshAfter k (by omega))
        (fun k hk hkc => by have h5 : k = c := hg hkc; omega)
  | malformed =>
      obtain ⟨hok, hfreshAfter, hfreshBefore⟩ := seedNotes_ok g hg (c + 1) now
      exact consState_inv g now (c + 3) ((createOp g now input ⟨.malformed, c⟩).1)
        (seedNotes g (c + 1) now)
        hok (hfreshBefore c (by omega)) rfl rfl
        (fun k hk => hfreshAfter k (by omega))
        (fun k hk hkc => by have h5 : k = c := hg hkc; omega)
  | nonArray =>
      obtain ⟨hok, hfreshAfter, hfreshBefore⟩ := seedNotes_ok g hg (c + 1) now
      exact consState_inv g now (c + 3) ((createOp g now input ⟨.nonArray, c⟩).1)
        (seedNotes g (c + 1) now)
        hok (hfreshBefore c (by omega)) rfl rfl
        (fun k hk => hfreshAfter k (by omega))
        (fun k hk hkc => by have h5 : k = c := hg hkc; omega)

/-- Updating a good-storage state preserves the invariant at the call
instant. -/
theorem updateOp_inv_core (g : Nat → String) (now : Nat) (id : String)
    (input : UpdateNoteInput) (ns : List Note) (c : Nat)
    (hok : NotesOK ns now) (hfresh : ∀ k, c ≤ k → g k ∉ idsOf ns) :
    MockInv g now (updateOp g now id input ⟨.arr ns, c⟩).2 := by
  by_cases hlt : ns.findIdx (fun n => n.id == id) < ns.length
  · have hids : idsOf (ns.set (ns.findIdx (fun n => n.id == id))
        (mergeNote (ns.get ⟨ns.findIdx (fun n => n.id == id), hlt⟩) input now)) =
        idsOf ns := by
      simp only [idsOf, List.map_set]
      have hlen : ns.findIdx (fun n => n.id == id) < (ns.map Note.id).length := by
        simpa using hlt
      have hmid : (mergeNote (ns.get ⟨ns.findIdx (fun n => n.id == id), hlt⟩)
            input now).id
          = (ns.map Note.id).get ⟨ns.findIdx (fun n => n.id == id), hlen⟩ := by
        simp [mergeNote, List.getElem_map, List.get_eq_getElem]
      rw [hmid]
      exact set_self_eq _ _ hlen
    have hstate : (updateOp g now id input ⟨.arr ns, c⟩).2 =
        ⟨.arr (ns.set (ns.findIdx (fun n => n.id == id))
          (mergeNote (ns.get ⟨ns.findIdx (fun n => n.id == id), hlt⟩) input now)), c⟩ := by
      simp only [updateOp, readNotes]
      rw [dif_pos hlt]
      rfl
    rw [hstate]
    intro ns' heq
    have h2 : StoredValue.arr (ns.set (ns.findIdx (fun n => n.id == id))
        (mergeNote (ns.get ⟨ns.findIdx (fun n => n.id == id), hlt⟩) input now)) =
        .arr ns' := heq
    injection h2 with h3
    subst h3
    refine ⟨⟨?_, ?_⟩, ?_⟩
    · rw [hids]; exact hok.1
    · intro n hn
      rcases List.mem_or_eq_of_mem_set hn with h | h
      · exact hok.2 n h
      · subst h
        have hold := hok.2 _ (List.get_mem ns _ hlt)
        exact ⟨hold.2.1, hold.2.1, le_rfl⟩
    · intro k hk hmem
      have hk' : c ≤ k := hk
      rw [hids] at hmem
      exact hfresh k hk' hmem
  · have hstate : (updateOp g now id input ⟨.arr ns, c⟩).2 = ⟨.arr ns, c⟩ := by
      simp only [updateOp, readNotes]
      rw [dif_neg hlt]
    rw [hstate]
    intro ns' heq
    have h2 : StoredValue.arr ns = .arr ns' := heq
    injection h2 with h3
    subst h3
    exact ⟨hok, fun k hk => hfresh k hk⟩

/-- Updating preserves the invariant, advancing the instant to the call
time, including when the read first has to reseed. -/
theorem updateOp_inv (g : Nat → String) (hg : Function.Injective g) {t : Nat}
    (now : Nat) (id : String) (input : UpdateNoteInput) (st : MockState)
    (h : MockInv g t st) (hle : t ≤ now) :
    MockInv g now (updateOp g now id input st).2 := by
  obtain ⟨sv, c⟩ := st
  cases sv with
  | arr ns =>
      obtain ⟨hok, hfresh⟩ := h ns rfl
      exact updateOp_inv_core g now id input ns c (notesOK_mono hok hle)
        (fun k hk => hfresh k hk)
  | missing =>
      obtain ⟨hok, hfreshAfter, _⟩ := seedNotes_ok g hg c now
      exact updateOp_inv_core g now id input (seedNotes g c now) (c + 2) hok
        (fun k hk => hfreshAfter k hk)
  | malformed =>
      obtain ⟨hok, hfreshAfter, _⟩ := seedNotes_ok g hg c now
      exact updateOp_inv_core g now id input (seedNotes g c now) (c + 2) hok
        (fun k hk => hfreshAfter k hk)
  | nonArray =>
      obtain ⟨hok, hfreshAfter, _⟩ := seedNotes_ok g hg c now
      exact updateOp_inv_core g now id input (seedNotes g c now) (c + 2) hok
        (fun k hk => hfreshAfter k hk)

/-- Removing from a good-storage state preserves the invariant. -/
theorem removeOp_inv_core (g : Nat → String) (now : Nat) (id : String)
    (ns : List Note) (c : Nat)
    (hok : NotesOK ns now) (hfresh : ∀ k, c ≤ k → g k ∉ idsOf ns) :
    MockInv g now (removeOp g now id ⟨.arr ns, c⟩) := by
  intro ns' heq
  have h2 : StoredValue.arr (ns.filter (fun n => n.id != id)) = .arr ns' := heq
  injection h2 with h3
  subst h3
  refine ⟨⟨?_, ?_⟩, ?_⟩
  · exact List.Nodup.sublist ((List.filter_sublist ns).map Note.id) hok.1
  · intro n hn
    exact hok.2 n ((List.filter_sublist ns).subset hn)
  · intro k hk hmem
    obtain ⟨n, hn, hid⟩ := List.mem_map.mp hmem
    exact hfresh k hk (List.mem_map.mpr ⟨n, (List.filter_sublist ns).subset hn, hid⟩)

/-- Removing preserves the invariant, advancing the instant to the call
time, including when the read first has to reseed. -/
theorem removeOp_inv (g : Nat → String) (hg : Function.Injective g) {t : Nat}
    (now : Nat) (id : String) (st : MockState)
    (h : MockInv g t st) (hle : t ≤ now) :
    MockInv g now (removeOp g now id st) := by
  obtain ⟨sv, c⟩ := st
  cases sv with
  | arr ns =>
      obtain ⟨hok, hfresh⟩ := h ns rfl
      exact removeOp_inv_core g now id ns c (notesOK_mono hok hle)
        (fun k hk => hfresh k hk)
  | missing =>
      obtain ⟨hok, hfreshAfter, _⟩ := seedNotes_ok g hg c now
      exact removeOp_inv_core g now id (seedNotes g c now) (c + 2) hok
        (fun k hk => hfreshAfter k hk)
  | malformed =>
      obtain ⟨hok, hfreshAfter, _⟩ := seedNotes_ok g hg c now
      exact removeOp_inv_core g now id (seedNotes g c now) (c + 2) hok
        (fun k hk => hfreshAfter k hk)
  | nonArray =>
      obtain ⟨hok, hfreshAfter, _⟩ := seedNotes_ok g hg c now
      exact removeOp_inv_core g now id (seedNotes g c now) (c + 2) hok
        (fun k hk => hfreshAfter k hk)

/-- Every single mutation preserves the invariant up to its call instant. -/
theorem applyOp_inv (g : Nat → String) (hg : Function.Injective g) {t : Nat}
    (op : MockOp) (st : MockState) (h : MockInv g t st) (hle : t ≤ op.time) :
    MockInv g op.time (applyOp g op st) := by
  cases op with
  | createN input now => exact createOp_inv g hg now input st h hle
  | updateN id input now => exact updateOp_inv g hg now id input st h hle
  | removeN id now => exact removeOp_inv g hg now id st h hle

/-- A well-timed run of mutations keeps the invariant at some final
instant. -/
theorem runOps_inv (g : Nat → String) (hg : Function.Injective g)
    (ops : List MockOp) : ∀ (st : MockState) (t : Nat),
    MockInv g t st → WellTimed t ops →
    ∃ t', MockInv g t' (runOps g ops st) := by
  induction ops with
  | nil => intro st t h _; exact ⟨t, h⟩
  | cons op rest ih =>
      intro st t h hwt
      exact ih (applyOp g op st) op.time (applyOp_inv g hg op st h hwt.1) hwt.2

/-- C9: after every well-timed sequence of create/update/remove operations
run with an injective id oracle from an invariant-satisfying state, the
persisted collection has pairwise distinct ids and updatedAt of at least
createdAt on every note (each embedded note carries all of its fields by
construction, so no partial notes exist). -/
theorem runOps_collection_invariant (g : Nat → String) (ops : List MockOp)
    (st : MockState) (t : Nat) (ns : List Note)
    (hg : Function.Injective g) (hinv : MockInv g t st) (hwt : WellTimed t ops)
    (hns : (runOps g ops st).storage = .arr ns) :
    (idsOf ns).Nodup ∧ ∀ n ∈ ns, n.createdAt ≤ n.updatedAt := by
  obtain ⟨t', hinv'⟩ := runOps_inv g hg ops st t hinv hwt
  obtain ⟨⟨h1, h2⟩, _⟩ := hinv' ns hns
  exact ⟨h1, fun n hn => (h2 n hn).1⟩

/-- Injective concrete id oracle for the C9 witness. -/
def wGen (k : Nat) : String :=
  String.mk (List.replicate k 'x')

/-- The witness oracle is injective. -/
theorem wGen_injective : Function.Injective wGen := by
  intro a b h
  have h2 : List.replicate a 'x' = List.replicate b 'x' := congrArg String.data h
  simpa using congrArg List.length h2

/-- The collection currently persisted by a mock state (empty when storage
does not hold one). -/
def storedNotes (st : MockState) : List Note :=
  match st.storage with
  | .arr ns => ns
  | _ => []

/-- Witness for C9: one create at instant 1 from empty storage, run with
the injective oracle. -/
theorem runOps_collection_invariant_witness :
    (idsOf (storedNotes (runOps wGen [.createN ⟨"t", "c", []⟩ 1] ⟨.missing, 0⟩))).Nodup :=
  (runOps_collection_invariant wGen [.createN ⟨"t", "c", []⟩ 1] ⟨.missing, 0⟩ 0
    (storedNotes (runOps wGen [.createN ⟨"t", "c", []⟩ 1] ⟨.missing, 0⟩))
    wGen_injective (fun _ h => nomatch h)
    ⟨Nat.zero_le 1, trivial⟩ rfl).1
